import Mathlib

/-!
# Verification of the Claude-to-OpenAI proxy (src/main.ts)

A shallow embedding in Lean 4 of the translation, credential-pool, retry and
stream-reframing logic of the repository's single source file, together with
proofs and refutations of the frozen specification claims.

Modelling conventions:
* JavaScript strings are modelled as Lean `String`s, except in the SSE byte/line
  layer where the handler slices strings character-wise; there JS strings are
  modelled as `List Char` so every operation computes in the kernel.
* A JS value that may be `undefined`/`null` is an `Option`.  JS truthiness on
  strings (`""` falsy), numbers (`0` falsy) and booleans is made explicit by
  the `strOr` / `numOr` / `ratOr` / `boolOr` helpers that translate the JS
  `x || d` idiom.
* `JSON.parse` / `JSON.stringify` of arbitrary data are not re-implemented; the
  stream layer takes the JSON decoder as an explicit function parameter
  (`none` standing for a parse exception, which the source catches and skips),
  and tool-call argument strings are carried verbatim where the source would
  parse them (no verified claim observes the parsed value).
* Wall-clock time (`Date.now()`) is an explicit `Nat` parameter.
* Functions that can throw in JS return `Except` or are paired with an explicit
  thrown-result constructor.
-/

/-- JS `s || d` for an optional string: `undefined`/`null` and `""` are falsy. -/
def strOr (v : Option String) (d : String) : String :=
  match v with
  | none => d
  | some s => if s = "" then d else s

/-- JS `n || d` for an optional number (`Nat` case): absent and `0` are falsy. -/
def numOr (v : Option Nat) (d : Nat) : Nat :=
  match v with
  | none => d
  | some x => if x = 0 then d else x

/-- JS `n || d` for an optional number (`ℚ` case): absent and `0` are falsy. -/
def ratOr (v : Option ℚ) (d : ℚ) : ℚ :=
  match v with
  | none => d
  | some x => if x = 0 then d else x

/-- JS `b || d` for an optional boolean. -/
def boolOr (v : Option Bool) (d : Bool) : Bool :=
  match v with
  | none => d
  | some b => b || d

/-- JS truthiness of an optional string value. -/
def truthyStr (v : Option String) : Bool :=
  match v with
  | none => false
  | some s => !(s = "")

/-! ## The upstream streaming chunk shape (OpenAI dialect)

Shapes read by `convertOpenAIStreamToClaude` (main.ts lines 297-341).  Absent
JSON fields are `none`; `choices` collapses "absent" and "empty array" since
the source only ever reads `choices && choices[0]`, which treats both the
same way.  -/

/-- The `function` member of a streamed tool-call fragment. -/
structure StreamFunc where
  name : Option String := none
  arguments : Option String := none
deriving DecidableEq, Repr

/-- One entry of `delta.tool_calls` in a streamed chunk. -/
structure StreamToolCall where
  index : Option Nat := none
  id : Option String := none
  function : Option StreamFunc := none
deriving DecidableEq, Repr

/-- The `delta` member of a streamed choice. -/
structure StreamDelta where
  content : Option String := none
  tool_calls : Option (List StreamToolCall) := none
deriving DecidableEq, Repr

/-- One entry of `choices` in a streamed chunk. -/
structure StreamChoice where
  delta : Option StreamDelta := none
deriving DecidableEq, Repr

/-- A parsed upstream SSE data chunk. -/
structure OpenAIChunk where
  id : Option String := none
  model : Option String := none
  choices : List StreamChoice := []
deriving DecidableEq, Repr

/-- The inbound (Claude-dialect) stream events produced by
`convertOpenAIStreamToClaude`.  The constructor names mirror the `type` field
of the emitted JSON objects; `inputJsonDelta` and `textDelta` both carry type
`content_block_delta`.  -/
inductive ClaudeEvent where
  /-- `content_block_start` for a tool call: index is the literal `toolCall.index`
  (guarded to be `0`), with the call id and function name. -/
  | contentBlockStart (index : Nat) (id : String) (name : Option String)
  /-- `content_block_delta` with an `input_json_delta` payload; the index is
  copied from the fragment and may be absent in JS (`undefined`). -/
  | inputJsonDelta (index : Option Nat) (partialJson : String)
  /-- `content_block_delta` with a `text_delta` payload at the hard-coded index 0. -/
  | textDelta (index : Nat) (text : String)
deriving DecidableEq, Repr

/-- The `type` discriminator string of an emitted event object. -/
def ClaudeEvent.typeStr : ClaudeEvent → String
  | .contentBlockStart .. => "content_block_start"
  | .inputJsonDelta .. => "content_block_delta"
  | .textDelta .. => "content_block_delta"

/-- The truthiness test `delta?.tool_calls?.[0]?.function?.arguments` of the
second branch of `convertOpenAIStreamToClaude` (line 318); returns the fragment
index together with the argument text when the whole chain is defined and the
argument text is truthy (non-empty).  -/
def argChain (d? : Option StreamDelta) : Option (Option Nat × String) :=
  match d? with
  | none => none
  | some d =>
    match d.tool_calls with
    | none => none
    | some tcs =>
      match tcs.head? with
      | none => none
      | some tc =>
        match tc.function with
        | none => none
        | some fn =>
          match fn.arguments with
          | none => none
          | some args => if args = "" then none else some (tc.index, args)

/-- main.ts lines 297-341, `convertOpenAIStreamToClaude`.  `Except` models the
fact that the JS body can throw a `TypeError` (when `delta.tool_calls` is a
truthy empty array, `delta.tool_calls[0].index` dereferences `undefined`; when
the start guard passes but `toolCall.function` is absent, `.name` does); the
caller wraps the call in `try`/`catch` and skips the chunk on a throw.
`.ok none` is the JS `return null`. -/
def convertOpenAIStreamToClaude (c : OpenAIChunk) : Except String (Option ClaudeEvent) :=
  match c.choices.head? with
  | none => .ok none
  | some choice =>
    let d? := choice.delta
    -- first branch: `if (delta?.tool_calls)` — any present array (even empty) is truthy
    let firstBranch : Except String (Option ClaudeEvent) :=
      match d? with
      | none => .ok none
      | some d =>
        match d.tool_calls with
        | none => .ok none
        | some tcs =>
          match tcs.head? with
          | none => .error "TypeError: cannot read properties of undefined"
          | some tc =>
            if tc.index = some 0 && truthyStr tc.id then
              match tc.function with
              | none => .error "TypeError: cannot read properties of undefined"
              | some fn => .ok (some (.contentBlockStart 0 (tc.id.getD "") fn.name))
            else .ok none
    match firstBranch with
    | .error e => .error e
    | .ok (some ev) => .ok (some ev)
    | .ok none =>
      -- second branch: `if (delta?.tool_calls?.[0]?.function?.arguments)`
      match argChain d? with
      | some (idx, args) => .ok (some (.inputJsonDelta idx args))
      | none =>
        -- third branch: `if (delta?.content)`
        match d? with
        | some d =>
          match d.content with
          | some t => if t = "" then .ok none else .ok (some (.textDelta 0 t))
          | none => .ok none
        | none => .ok none

/-! ## The stream-handling loop of `handleRequest` (main.ts lines 401-489)

The loop consumes decoded text chunks, maintains a partial-line buffer, splits
complete lines, and for each `data: ` line parses JSON and re-frames the result
as Claude SSE events.  We model decoded chunks and lines as `List Char` (so the
character-level `trim` / `startsWith('data: ')` / `substring(5)` operations
compute), and take the JSON decoder as a parameter
`parse : List Char → Option OpenAIChunk` (`none` = `JSON.parse` throws, which
the source logs and skips).  The model covers normal operation: the reader is
drained without a read failure and the client never cancels, so `streamClosed`
stays `false` and every `safeEnqueue` succeeds. -/

/-- JS `buffer.split('\n')` on a character list: splits at every newline,
keeping empty segments (`"".split('\n') == [""]`). -/
def splitOnNl : List Char → List (List Char)
  | [] => [[]]
  | c :: rest =>
    if c = '\n' then [] :: splitOnNl rest
    else
      match splitOnNl rest with
      | [] => [[c]]
      | s :: ss => (c :: s) :: ss

/-- JS `String.prototype.trim()` on a character list. -/
def trimChars (l : List Char) : List Char :=
  ((l.dropWhile Char.isWhitespace).reverse.dropWhile Char.isWhitespace).reverse

/-- The characters of the SSE prefix `"data: "`. -/
def dataMark : List Char := ['d', 'a', 't', 'a', ':', ' ']

/-- The characters of the SSE termination marker `"[DONE]"`. -/
def doneMark : List Char := ['[', 'D', 'O', 'N', 'E', ']']

/-- The events written to the response stream, one per `event: ...\ndata: ...`
frame.  `messageStart` is the synthetic frame of line 446; `event` carries the
wire event name of line 451 together with the converted payload; `messageStop`
is the terminal frame of lines 465-468, whose boolean is the
`anthropic-internal-tool-use-end` field (the final value of `toolCallStarted`). -/
inductive Frame where
  | messageStart (id : Option String) (model : Option String)
  | event (name : String) (ev : ClaudeEvent)
  | messageStop (toolUseEnd : Bool)
deriving DecidableEq, Repr

/-- The SSE event name chosen on line 451 for a converted payload. -/
def wireName (ev : ClaudeEvent) : String :=
  if ev.typeStr = "content_block_start" || ev.typeStr = "content_block_delta" then
    "content_block_delta"
  else "message_delta"

/-- Whether a converted payload is a `content_block_start`, i.e. the test
`claudeEvent.type === 'content_block_start'` of line 445. -/
def isStartEv : ClaudeEvent → Bool
  | .contentBlockStart .. => true
  | _ => false

/-- Lines 433-443: decoding of one complete line up to the converted event.
A line that is not a `data: ` line, the `[DONE]` marker, a line whose JSON
fails to parse or whose conversion throws (both caught and skipped on lines
454-457), and a conversion returning `null` all yield no event. -/
def lineEvent (parse : List Char → Option OpenAIChunk) (line : List Char) :
    Option (OpenAIChunk × ClaudeEvent) :=
  let t := trimChars line
  if dataMark.isPrefixOf t then
    let dataStr := trimChars (t.drop 5)
    if dataStr = doneMark then none
    else
      match parse dataStr with
      | none => none  -- JSON.parse threw: logged, skipped
      | some chunk =>
        match convertOpenAIStreamToClaude chunk with
        | .error _ => none  -- conversion threw: same catch, skipped
        | .ok none => none
        | .ok (some ev) => some (chunk, ev)
  else none

/-- Lines 433-459: processing of one complete line.  State is the
`toolCallStarted` flag; the result lists the frames enqueued for this line
(the emission block of lines 444-452: a synthetic `message_start` before the
first `content_block_start`, then the converted event itself). -/
def processLine (parse : List Char → Option OpenAIChunk) (started : Bool)
    (line : List Char) : Bool × List Frame :=
  match lineEvent parse line with
  | none => (started, [])
  | some (chunk, ev) =>
    if isStartEv ev && !started then
      (true, [Frame.messageStart chunk.id chunk.model, Frame.event (wireName ev) ev])
    else (started || isStartEv ev, [Frame.event (wireName ev) ev])

/-- Processing of the complete lines extracted from one read. -/
def processLines (parse : List Char → Option OpenAIChunk) :
    Bool → List (List Char) → Bool × List Frame
  | started, [] => (started, [])
  | started, l :: ls =>
    let r := processLine parse started l
    let rest := processLines parse r.1 ls
    (rest.1, r.2 ++ rest.2)

/-- Lines 425-462: the read loop.  Each decoded chunk is appended to the
pending buffer, the buffer is split on newlines, the final (possibly partial)
segment becomes the new buffer, and the complete lines are processed.  When the
reader reports `done`, any leftover buffer is dropped (the source never flushes
it). -/
def processChunks (parse : List Char → Option OpenAIChunk) :
    Bool → List Char → List (List Char) → Bool × List Frame
  | started, _buffer, [] => (started, [])
  | started, buffer, chunk :: rest =>
    let pieces := splitOnNl (buffer ++ chunk)
    let r := processLines parse started pieces.dropLast
    let tail := processChunks parse r.1 (pieces.getLast?.getD []) rest
    (tail.1, r.2 ++ tail.2)

/-- The full streamed exchange on normal exhaustion (lines 424-468): run the
read loop from a fresh state, then append the single `message_stop` frame whose
flag is the final `toolCallStarted` value. -/
def handleRequestStream (parse : List Char → Option OpenAIChunk)
    (chunks : List (List Char)) : List Frame :=
  let r := processChunks parse false [] chunks
  r.2 ++ [Frame.messageStop r.1]

/-- Whether a frame is the synthetic `message_start` frame. -/
def isMsgStartB : Frame → Bool
  | .messageStart .. => true
  | _ => false

/-- Whether a frame carries a `content_block_start` payload. -/
def isCBStartB : Frame → Bool
  | .event _ (.contentBlockStart ..) => true
  | _ => false

/-- Whether a frame carries a content-delta payload (`input_json_delta` or
`text_delta`). -/
def isContentDeltaB : Frame → Bool
  | .event _ (.inputJsonDelta ..) => true
  | .event _ (.textDelta ..) => true
  | _ => false

/-- Whether a frame is the terminal `message_stop` frame. -/
def isMsgStopB : Frame → Bool
  | .messageStop _ => true
  | _ => false

/-- Checker: scanning the frame list left to right, every frame carrying a
`content_block_start` payload must be preceded by a `message_start` frame. -/
def startsCovered (seen : Bool) : List Frame → Bool
  | [] => true
  | f :: rest =>
    (if isCBStartB f then seen else true) && startsCovered (seen || isMsgStartB f) rest

/-! ## ApiKeyManager (main.ts lines 68-121)

The JS `Map<string, number>` of failure times is modelled as an association
list in insertion order; `Map.prototype.set` on an existing key updates the
value in place, `delete` removes the entry, and the purge loop of `getKey`
(delete during iteration) amounts to a filter. -/

/-- `Map.prototype.has`. -/
def mapHas (m : List (String × Nat)) (k : String) : Bool :=
  m.any (fun p => p.1 == k)

/-- Lookup of the stored failure time (used only to state claims). -/
def mapGet? (m : List (String × Nat)) (k : String) : Option Nat :=
  (m.find? (fun p => p.1 == k)).map (·.2)

/-- `Map.prototype.set`: update in place when present, else append. -/
def mapSet (m : List (String × Nat)) (k : String) (v : Nat) : List (String × Nat) :=
  if mapHas m k then m.map (fun p => if p.1 == k then (k, v) else p)
  else m ++ [(k, v)]

/-- The recovery window `FAILURE_TIMEOUT` (line 72): 60000 ms. -/
def FAILURE_TIMEOUT : Nat := 60000

/-- Lines 81-87: delete every entry whose failure time is strictly older than
the recovery window.  `Nat` subtraction truncates at 0, which agrees with the
JS comparison (`now - failTime > 60000` is false for a future fail time). -/
def purgeMap (m : List (String × Nat)) (now : Nat) : List (String × Nat) :=
  m.filter (fun p => decide (now - p.2 ≤ FAILURE_TIMEOUT))

/-- The mutable state of an `ApiKeyManager` instance. -/
structure KeyManager where
  keys : List String
  currentIndex : Nat
  failedKeys : List (String × Nat)
deriving DecidableEq, Repr

/-- The constructor (lines 74-77): fresh cursor, empty failure map. -/
def mkManager (keys : List String) : KeyManager :=
  { keys := keys, currentIndex := 0, failedKeys := [] }

/-- The eligible-credential list a `getKey` call computes at time `now`
(line 90, after the purge of lines 81-87). -/
def availableAt (st : KeyManager) (now : Nat) : List String :=
  st.keys.filter (fun k => !(mapHas (purgeMap st.failedKeys now) k))

/-- Lines 79-106, `getKey`, at wall-clock time `now`.  Returns the selected
key (`none` models the JS `undefined` produced by indexing an empty key array)
and the updated manager state.  When no key is eligible the failure map is
cleared and plain round-robin over the full list is used. -/
def getKey (st : KeyManager) (now : Nat) : Option String × KeyManager :=
  let failed := purgeMap st.failedKeys now
  let avail := st.keys.filter (fun k => !(mapHas failed k))
  if avail.isEmpty then
    (st.keys.get? (st.currentIndex % st.keys.length),
     { st with currentIndex := st.currentIndex + 1, failedKeys := [] })
  else
    (avail.get? (st.currentIndex % avail.length),
     { st with currentIndex := st.currentIndex + 1, failedKeys := failed })

/-- Lines 108-111, `markKeyAsFailed`: record (or refresh) the failure time.
The optional error argument is only logged, not stored. -/
def markKeyAsFailed (st : KeyManager) (key : String) (now : Nat) : KeyManager :=
  { st with failedKeys := mapSet st.failedKeys key now }

/-- An operation performed on the shared pool, with its wall-clock time. -/
inductive PoolOp where
  | select (now : Nat)
  | markFailed (key : String) (now : Nat)
deriving DecidableEq, Repr

/-- The wall-clock time of a pool operation. -/
def PoolOp.time : PoolOp → Nat
  | .select now => now
  | .markFailed _ now => now

/-- Run a sequence of pool operations; the result lists the key returned by
each `select` operation in order. -/
def runOps : KeyManager → List PoolOp → KeyManager × List (Option String)
  | st, [] => (st, [])
  | st, .select now :: rest =>
    let r := getKey st now
    let t := runOps r.2 rest
    (t.1, r.1 :: t.2)
  | st, .markFailed k now :: rest => runOps (markKeyAsFailed st k now) rest

/-- Whether every `select` in the operation sequence finds at least one
eligible credential (so the full-reset fallback of lines 92-98 never fires). -/
def opsNoReset : KeyManager → List PoolOp → Bool
  | _, [] => true
  | st, .select now :: rest =>
    !(availableAt st now).isEmpty && opsNoReset (getKey st now).2 rest
  | st, .markFailed k now :: rest => opsNoReset (markKeyAsFailed st k now) rest

/-- The selections made by `n` consecutive `getKey` calls on a fresh manager
with no failures (the times are irrelevant because the failure map stays
empty; 0 is used). -/
def selections (keys : List String) (n : Nat) : List (Option String) :=
  (runOps (mkManager keys) (List.replicate n (.select 0))).2

/-! ## convertClaudeToOpenAI (main.ts lines 153-185) -/

/-- A typed content block of an inbound message.  `JSON.stringify(c)` of a
block is modelled by `stringifyPart` below; only blocks of this simple shape
are modelled (the source treats blocks as `any`). -/
structure ClaudeContentPart where
  type : String := ""
  text : Option String := none
deriving DecidableEq, Repr

/-- A rendering of `JSON.stringify` for a `ClaudeContentPart` (used for blocks
without truthy text; no verified claim observes this string). -/
def stringifyPart (c : ClaudeContentPart) : String :=
  match c.text with
  | none => "\x7b\"type\":\"" ++ c.type ++ "\"\x7d"
  | some t => "\x7b\"type\":\"" ++ c.type ++ "\",\"text\":\"" ++ t ++ "\"\x7d"

/-- Inbound message content: a plain string or an array of typed blocks. -/
inductive ClaudeContent where
  | str (s : String)
  | blocks (l : List ClaudeContentPart)
deriving DecidableEq, Repr

/-- An inbound (Claude-dialect) message. -/
structure ClaudeMessage where
  role : String
  content : ClaudeContent
deriving DecidableEq, Repr

/-- An inbound tool declaration (`name` / `description` / `input_schema`); the
schema is carried as an opaque string. -/
structure ClaudeTool where
  name : Option String := none
  description : Option String := none
  input_schema : Option String := none
deriving DecidableEq, Repr

/-- An inbound (Claude-dialect) request; optional fields are `Option`. -/
structure ClaudeRequest where
  model : String
  messages : List ClaudeMessage
  max_tokens : Option Nat := none
  temperature : Option ℚ := none
  stream : Option Bool := none
  tools : Option (List ClaudeTool) := none
  tool_choice : Option String := none
deriving DecidableEq, Repr

/-- An outbound (OpenAI-dialect) message. -/
structure OpenAIMessage where
  role : String
  content : String
deriving DecidableEq, Repr

/-- The `function` member of an outbound tool declaration. -/
structure OpenAIToolFunc where
  name : Option String
  description : Option String
  parameters : Option String
deriving DecidableEq, Repr

/-- An outbound tool declaration `{type: "function", function: {...}}`. -/
structure OpenAITool where
  type : String
  function : OpenAIToolFunc
deriving DecidableEq, Repr

/-- An outbound (OpenAI-dialect) request.  `tools` / `tool_choice` are present
only when the spread guards of lines 182-183 include them. -/
structure OpenAIRequest where
  model : String
  messages : List OpenAIMessage
  max_tokens : Nat
  temperature : ℚ
  stream : Bool
  tools : Option (List OpenAITool)
  tool_choice : Option String
deriving DecidableEq, Repr

/-- The static `MODEL_MAPPING` table (lines 61-65). -/
def MODEL_MAPPING : List (String × String) :=
  [("claude-3-5-haiku-20241022", "anthropic/claude-3.5-haiku"),
   ("claude-sonnet-4-20250514", "anthropic/claude-sonnet-4"),
   ("claude-opus-4-20250514", "anthropic/claude-opus-4")]

/-- Flattening of one message (lines 155-160): array content joins the blocks'
text (or their JSON rendering when the text is falsy) with newlines. -/
def flattenContent : ClaudeContent → String
  | .str s => s
  | .blocks l => String.intercalate "\n" (l.map (fun c => strOr c.text (stringifyPart c)))

/-- Lines 153-185, `convertClaudeToOpenAI`. -/
def convertClaudeToOpenAI (req : ClaudeRequest) : OpenAIRequest :=
  { model := strOr ((MODEL_MAPPING.find? (fun p => p.1 == req.model)).map (·.2))
      "anthropic/claude-4-sonnet"
    messages := req.messages.map (fun m => ⟨m.role, flattenContent m.content⟩)
    max_tokens := numOr req.max_tokens 4096
    temperature := ratOr req.temperature 0.7
    stream := boolOr req.stream false
    tools := req.tools.map (fun ts => ts.map (fun t =>
      ⟨"function", ⟨t.name, t.description, t.input_schema⟩⟩))
    tool_choice :=
      match req.tool_choice with
      | none => none
      | some tc => if tc = "" then none else some tc }

/-! ## convertOpenAIToClaude (main.ts lines 251-295) -/

/-- The `function` member of a non-streaming tool call. -/
structure OAIFunc where
  name : Option String := none
  arguments : Option String := none
deriving DecidableEq, Repr

/-- A non-streaming tool call entry. -/
structure OAIToolCall where
  id : Option String := none
  function : OAIFunc := {}
deriving DecidableEq, Repr

/-- The `message` member of a non-streaming choice. -/
structure OAIMessageOut where
  content : Option String := none
  tool_calls : Option (List OAIToolCall) := none
deriving DecidableEq, Repr

/-- A non-streaming choice. -/
structure OAIChoice where
  message : Option OAIMessageOut := none
  finish_reason : Option String := none
deriving DecidableEq, Repr

/-- Non-streaming usage counts. -/
structure OAIUsage where
  prompt_tokens : Nat := 0
  completion_tokens : Nat := 0
deriving DecidableEq, Repr

/-- A non-streaming outbound response. -/
structure OAIResponse where
  id : Option String := none
  model : Option String := none
  choices : List OAIChoice := []
  usage : Option OAIUsage := none
deriving DecidableEq, Repr

/-- An inbound-dialect content block of the converted response.  For a
`toolUse` block the source sets `input: JSON.parse(call.function.arguments)`;
the argument text is retained verbatim here (no verified claim observes the
parsed value, and `JSON.parse` of arbitrary text is out of scope). -/
inductive ClaudeBlock where
  | text (text : String)
  | toolUse (id : Option String) (name : Option String) (inputRaw : Option String)
deriving DecidableEq, Repr

/-- Converted usage counts. -/
structure ClaudeUsage where
  input_tokens : Nat
  output_tokens : Nat
deriving DecidableEq, Repr

/-- The converted (inbound-dialect) message object. -/
structure ClaudeResponseMsg where
  id : String
  type : String
  role : String
  content : List ClaudeBlock
  model : Option String
  stop_reason : Option String
  stop_sequence : Option String
  usage : Option ClaudeUsage
deriving DecidableEq, Repr

/-- Result of `convertOpenAIToClaude`: a converted message, or the input passed
through unchanged when it has no first choice (line 294). -/
inductive ConvertResult where
  | converted (msg : ClaudeResponseMsg)
  | passthrough (resp : OAIResponse)
deriving DecidableEq, Repr

/-- Lines 251-295, `convertOpenAIToClaude`.  `now` is `Date.now()`, used only
for the fallback message id. -/
def convertOpenAIToClaude (now : Nat) (r : OAIResponse) : ConvertResult :=
  match r.choices.head? with
  | none => .passthrough r
  | some choice =>
    let outId := strOr r.id ("msg_" ++ toString now)
    let outUsage := r.usage.map (fun u => ⟨u.prompt_tokens, u.completion_tokens⟩)
    match choice.message with
    | some msg =>
      match msg.tool_calls with
      | some calls =>
        -- `choice.message?.tool_calls` is truthy for any present array, even []
        .converted
          { id := outId, type := "message", role := "assistant"
            content := calls.map (fun call =>
              .toolUse call.id call.function.name call.function.arguments)
            model := r.model, stop_reason := some "tool_use", stop_sequence := none
            usage := outUsage }
      | none =>
        .converted
          { id := outId, type := "message", role := "assistant"
            content := [.text (strOr msg.content "")]
            model := r.model
            stop_reason :=
              if choice.finish_reason = some "stop" then some "end_turn"
              else choice.finish_reason
            stop_sequence := none, usage := outUsage }
    | none =>
      .converted
        { id := outId, type := "message", role := "assistant"
          content := [.text ""]
          model := r.model
          stop_reason :=
            if choice.finish_reason = some "stop" then some "end_turn"
            else choice.finish_reason
          stop_sequence := none, usage := outUsage }

/-! ## makeRequestWithRetry (main.ts lines 188-248) -/

/-- The observable result of one `fetch` of the outbound request: an HTTP
response (any status) or a network-level exception with its message. -/
inductive FetchOutcome where
  | response (status : Nat) (body : String)
  | network (msg : String)
deriving DecidableEq, Repr

/-- `Response.ok`: status in the 2xx range. -/
def respOk (status : Nat) : Bool :=
  decide (200 ≤ status) && decide (status ≤ 299)

/-- A call of `keyManager.markKeyAsFailed(key, reason)` recorded with the
reason argument (the source only logs the reason; it is recorded here so that
claims about failure reasons can be stated). -/
structure MarkEvent where
  key : String
  reason : String
deriving DecidableEq, Repr

/-- The failure classification of one attempt (lines 211-218 and 233-236):
a 401/403 response or a network exception marks the selected key failed;
any other response leaves the pool untouched. -/
def classifyOutcome (st : KeyManager) (key : String) (now : Nat) :
    FetchOutcome → KeyManager × List MarkEvent
  | .response status _ =>
    if status = 401 || status = 403 then
      (markKeyAsFailed st key now, [⟨key, "HTTP " ++ toString status⟩])
    else (st, [])
  | .network msg => (markKeyAsFailed st key now, [⟨key, msg⟩])

/-- What `makeRequestWithRetry` delivers: a `Response` (either the successful
upstream response or the final-attempt error response rebuilt with the same
status and body text, lines 222-231), or a thrown exception. -/
inductive RetryResult where
  | response (status : Nat) (body : String)
  | thrown (msg : String)
deriving DecidableEq, Repr

/-- The observable trace of a `makeRequestWithRetry` run. -/
structure RetryRun where
  result : RetryResult
  state : KeyManager
  /-- the `Authorization` header of each outbound `fetch` actually issued,
  in order (line 201). -/
  fetches : List String
  /-- the `markKeyAsFailed` calls made, with their reason arguments. -/
  marks : List MarkEvent
deriving DecidableEq, Repr

/-- Lines 188-248, `makeRequestWithRetry`.  Each attempt consumes one entry of
`outcomes` (its wall-clock time and the result of its `fetch`).  When the pool
is empty, `getKey` returns `undefined` and the log statement on line 195
(`selectedKey.substring(0, 8)`) throws a `TypeError` before any fetch; the
catch block then calls `markKeyAsFailed(undefined, ...)`, whose own log line
re-throws, so the `TypeError` escapes the function (modelled as `.thrown`
with no fetch recorded; the `undefined` entry the catch block adds to the
failure map is invisible to every string-keyed lookup and is not modelled).
The empty-`outcomes` base case corresponds to the unreachable fall-through
throw of line 247. -/
def makeRequestWithRetry (maxRetries : Nat) :
    KeyManager → Nat → List (Nat × FetchOutcome) → RetryRun
  | st, _, [] => ⟨.thrown "All attempts failed", st, [], []⟩
  | st, attempt, (now, oc) :: rest =>
    let sel := getKey st now
    match sel.1 with
    | none => ⟨.thrown "TypeError: cannot read properties of undefined", sel.2, [], []⟩
    | some key =>
      let auth := "Bearer " ++ key
      match oc with
      | .response status body =>
        if respOk status then ⟨.response status body, sel.2, [auth], []⟩
        else
          let cls := classifyOutcome sel.2 key now (.response status body)
          if attempt = maxRetries then ⟨.response status body, cls.1, [auth], cls.2⟩
          else
            let r := makeRequestWithRetry maxRetries cls.1 (attempt + 1) rest
            ⟨r.result, r.state, auth :: r.fetches, cls.2 ++ r.marks⟩
      | .network msg =>
        let cls := classifyOutcome sel.2 key now (.network msg)
        if attempt = maxRetries then ⟨.thrown msg, cls.1, [auth], cls.2⟩
        else
          let r := makeRequestWithRetry maxRetries cls.1 (attempt + 1) rest
          ⟨r.result, r.state, auth :: r.fetches, cls.2 ++ r.marks⟩

/-! ## Stream-ordering lemmas (claims C1 and C2) -/

/-- A `Frame.event` carries a `content_block_start` payload exactly when the
payload satisfies the source's start test. -/
@[simp] theorem isCBStartB_event (n : String) (ev : ClaudeEvent) :
    isCBStartB (Frame.event n ev) = isStartEv ev := by
  cases ev <;> rfl

@[simp] theorem isCBStartB_msgStart (i m : Option String) :
    isCBStartB (Frame.messageStart i m) = false := rfl

@[simp] theorem isCBStartB_msgStop (b : Bool) :
    isCBStartB (Frame.messageStop b) = false := rfl

@[simp] theorem isMsgStartB_event (n : String) (ev : ClaudeEvent) :
    isMsgStartB (Frame.event n ev) = false := rfl

@[simp] theorem isMsgStartB_msgStart (i m : Option String) :
    isMsgStartB (Frame.messageStart i m) = true := rfl

@[simp] theorem isMsgStartB_msgStop (b : Bool) :
    isMsgStartB (Frame.messageStop b) = false := rfl

@[simp] theorem isMsgStopB_event (n : String) (ev : ClaudeEvent) :
    isMsgStopB (Frame.event n ev) = false := rfl

@[simp] theorem isMsgStopB_msgStart (i m : Option String) :
    isMsgStopB (Frame.messageStart i m) = false := rfl

@[simp] theorem isMsgStopB_msgStop (b : Bool) :
    isMsgStopB (Frame.messageStop b) = true := rfl

/-- One line never enqueues a `message_stop` frame. -/
theorem processLine_stop (parse : List Char → Option OpenAIChunk) (started : Bool)
    (line : List Char) :
    ((processLine parse started line).2).countP isMsgStopB = 0 := by
  unfold processLine
  cases h : lineEvent parse line with
  | none => simp
  | some pe =>
    obtain ⟨chunk, ev⟩ := pe
    by_cases hs : (isStartEv ev && !started) = true <;>
      simp [hs, List.countP_cons]

/-- The updated `toolCallStarted` flag after one line is the old flag or-ed
with whether the line enqueued a `content_block_start` frame. -/
theorem processLine_flag (parse : List Char → Option OpenAIChunk) (started : Bool)
    (line : List Char) :
    (processLine parse started line).1
      = (started || ((processLine parse started line).2).any isCBStartB) := by
  unfold processLine
  cases h : lineEvent parse line with
  | none => simp
  | some pe =>
    obtain ⟨chunk, ev⟩ := pe
    cases hst : started <;> cases hse : isStartEv ev <;> simp [hse]

/-- One line enqueues a `message_start` frame exactly when it flips the
`toolCallStarted` flag from `false` to `true`. -/
theorem processLine_msCount (parse : List Char → Option OpenAIChunk) (started : Bool)
    (line : List Char) :
    ((processLine parse started line).2).countP isMsgStartB
      = if started then 0 else if (processLine parse started line).1 then 1 else 0 := by
  unfold processLine
  cases h : lineEvent parse line with
  | none => cases started <;> simp
  | some pe =>
    obtain ⟨chunk, ev⟩ := pe
    cases hst : started <;> cases hse : isStartEv ev <;> simp [hse, List.countP_cons]

/-- Scanning the frames of one line keeps the `startsCovered` checker in step:
entering with `seen = started`, the frames all pass and the checker leaves in
state equal to the updated flag. -/
theorem processLine_covered (parse : List Char → Option OpenAIChunk) (started : Bool)
    (line : List Char) (X : List Frame) :
    startsCovered started ((processLine parse started line).2 ++ X)
      = startsCovered (processLine parse started line).1 X := by
  unfold processLine
  cases h : lineEvent parse line with
  | none => simp
  | some pe =>
    obtain ⟨chunk, ev⟩ := pe
    cases hst : started <;> cases hse : isStartEv ev <;>
      simp [hse, startsCovered]

/-- Composition of the start-count bookkeeping across two stages whose flags
only ever move from `false` to `true`. -/
theorem msCount_step (s0 s1 s2 : Bool) (a b : Nat)
    (ha : a = if s0 then 0 else if s1 then 1 else 0)
    (hb : b = if s1 then 0 else if s2 then 1 else 0)
    (h01 : s0 = true → s1 = true) (h12 : s1 = true → s2 = true) :
    a + b = if s0 then 0 else if s2 then 1 else 0 := by
  subst ha hb
  cases s0 <;> cases s1 <;> cases s2 <;> simp_all

/-- `processLines` never enqueues a `message_stop` frame. -/
theorem processLines_stop (parse : List Char → Option OpenAIChunk) :
    ∀ (lines : List (List Char)) (started : Bool),
      ((processLines parse started lines).2).countP isMsgStopB = 0 := by
  intro lines
  induction lines with
  | nil => intro started; simp [processLines]
  | cons l ls ih =>
    intro started
    simp [processLines, List.countP_append, processLine_stop, ih]

/-- The flag after `processLines` is the initial flag or-ed with whether any
enqueued frame is a `content_block_start`. -/
theorem processLines_flag (parse : List Char → Option OpenAIChunk) :
    ∀ (lines : List (List Char)) (started : Bool),
      (processLines parse started lines).1
        = (started || ((processLines parse started lines).2).any isCBStartB) := by
  intro lines
  induction lines with
  | nil => intro started; simp [processLines]
  | cons l ls ih =>
    intro started
    simp only [processLines, List.any_append]
    rw [ih, processLine_flag parse started l, Bool.or_assoc]

/-- `processLines` enqueues a `message_start` frame exactly when it flips the
flag from `false` to `true`, hence at most once. -/
theorem processLines_msCount (parse : List Char → Option OpenAIChunk) :
    ∀ (lines : List (List Char)) (started : Bool),
      ((processLines parse started lines).2).countP isMsgStartB
        = if started then 0 else if (processLines parse started lines).1 then 1 else 0 := by
  intro lines
  induction lines with
  | nil => intro started; cases started <;> simp [processLines]
  | cons l ls ih =>
    intro started
    simp only [processLines, List.countP_append]
    refine msCount_step started ((processLine parse started l).1)
      ((processLines parse ((processLine parse started l).1) ls).1) _ _
      (processLine_msCount parse started l) (ih ((processLine parse started l).1)) ?_ ?_
    · intro h
      rw [processLine_flag parse started l, h]
      simp
    · intro h
      rw [processLines_flag parse ls ((processLine parse started l).1), h]
      simp

/-- `startsCovered` steps through the frames of `processLines` like the flag. -/
theorem processLines_covered (parse : List Char → Option OpenAIChunk) :
    ∀ (lines : List (List Char)) (started : Bool) (X : List Frame),
      startsCovered started ((processLines parse started lines).2 ++ X)
        = startsCovered (processLines parse started lines).1 X := by
  intro lines
  induction lines with
  | nil => intro started X; simp [processLines]
  | cons l ls ih =>
    intro started X
    simp only [processLines, List.append_assoc]
    rw [processLine_covered parse started l, ih]

/-- `processChunks` never enqueues a `message_stop` frame. -/
theorem processChunks_stop (parse : List Char → Option OpenAIChunk) :
    ∀ (chunks : List (List Char)) (started : Bool) (buffer : List Char),
      ((processChunks parse started buffer chunks).2).countP isMsgStopB = 0 := by
  intro chunks
  induction chunks with
  | nil => intro started buffer; simp [processChunks]
  | cons c cs ih =>
    intro started buffer
    simp [processChunks, List.countP_append, processLines_stop, ih]

/-- The flag after `processChunks` is the initial flag or-ed with whether any
enqueued frame is a `content_block_start`. -/
theorem processChunks_flag (parse : List Char → Option OpenAIChunk) :
    ∀ (chunks : List (List Char)) (started : Bool) (buffer : List Char),
      (processChunks parse started buffer chunks).1
        = (started || ((processChunks parse started buffer chunks).2).any isCBStartB) := by
  intro chunks
  induction chunks with
  | nil => intro started buffer; simp [processChunks]
  | cons c cs ih =>
    intro started buffer
    simp only [processChunks, List.any_append]
    rw [ih, processLines_flag parse ((splitOnNl (buffer ++ c)).dropLast) started, Bool.or_assoc]

/-- `processChunks` enqueues a `message_start` frame exactly when it flips the
flag from `false` to `true`, hence at most once. -/
theorem processChunks_msCount (parse : List Char → Option OpenAIChunk) :
    ∀ (chunks : List (List Char)) (started : Bool) (buffer : List Char),
      ((processChunks parse started buffer chunks).2).countP isMsgStartB
        = if started then 0 else if (processChunks parse started buffer chunks).1 then 1 else 0 := by
  intro chunks
  induction chunks with
  | nil => intro started buffer; cases started <;> simp [processChunks]
  | cons c cs ih =>
    intro started buffer
    simp only [processChunks, List.countP_append]
    refine msCount_step started
      ((processLines parse started ((splitOnNl (buffer ++ c)).dropLast)).1)
      ((processChunks parse ((processLines parse started ((splitOnNl (buffer ++ c)).dropLast)).1)
        ((splitOnNl (buffer ++ c)).getLast?.getD []) cs).1) _ _
      (processLines_msCount parse ((splitOnNl (buffer ++ c)).dropLast) started)
      (ih ((processLines parse started ((splitOnNl (buffer ++ c)).dropLast)).1)
        ((splitOnNl (buffer ++ c)).getLast?.getD [])) ?_ ?_
    · intro h
      rw [processLines_flag parse ((splitOnNl (buffer ++ c)).dropLast) started, h]
      simp
    · intro h
      rw [processChunks_flag parse cs
        ((processLines parse started ((splitOnNl (buffer ++ c)).dropLast)).1)
        ((splitOnNl (buffer ++ c)).getLast?.getD []), h]
      simp

/-- `startsCovered` steps through the frames of `processChunks` like the flag. -/
theorem processChunks_covered (parse : List Char → Option OpenAIChunk) :
    ∀ (chunks : List (List Char)) (started : Bool) (buffer : List Char) (X : List Frame),
      startsCovered started ((processChunks parse started buffer chunks).2 ++ X)
        = startsCovered (processChunks parse started buffer chunks).1 X := by
  intro chunks
  induction chunks with
  | nil => intro started buffer X; simp [processChunks]
  | cons c cs ih =>
    intro started buffer X
    simp only [processChunks, List.append_assoc]
    rw [processLines_covered parse ((splitOnNl (buffer ++ c)).dropLast) started, ih]

/-! ## Claims C1 and C2 -/

/-- The JSON decoding observed in the C1 counterexample exchange: every data
line decodes to a chunk whose delta carries plain text `"hi"`. -/
def c1parse : List Char → Option OpenAIChunk := fun _ =>
  some { choices := [{ delta := some { content := some "hi" } }] }

/-- The single upstream chunk of the C1 counterexample: the SSE line
`data: x` followed by a newline. -/
def c1chunk : List Char := ['d', 'a', 't', 'a', ':', ' ', 'x', '\n']

/-- C1 counterexample.  A streamed exchange consisting of one upstream chunk
carrying a plain text delta emits a `content_block_delta` event (a content
event, at block index 0) while emitting no `message_start` frame at all and no
`content_block_start` event at any index: the loop only emits `message_start`
when a `content_block_start` (tool-call start) is converted, never for text
deltas.  This refutes both parts of the claimed ordering invariant —
`message_start` does not precede every content event, and a content delta for
block index 0 is emitted although no start event referencing index 0 is ever
emitted. -/
theorem claim_C1_counterexample :
    handleRequestStream c1parse [c1chunk]
      = [Frame.event "content_block_delta" (ClaudeEvent.textDelta 0 "hi"),
         Frame.messageStop false]
    ∧ (handleRequestStream c1parse [c1chunk]).countP isMsgStartB = 0
    ∧ (handleRequestStream c1parse [c1chunk]).countP isCBStartB = 0
    ∧ isContentDeltaB (Frame.event "content_block_delta" (ClaudeEvent.textDelta 0 "hi")) = true := by
  decide

/-- C1 (amended).  For every streamed exchange (any JSON decoding and any
finite sequence of upstream chunks), the emitted frame sequence contains at
most one `message_start` frame, and every `content_block_start` event is
strictly preceded by a `message_start` frame (`startsCovered` scans the
output and checks exactly this).  Content-delta events, by contrast, may be
emitted before `message_start` and without any start event at their index —
that part of the original claim is refuted by `claim_C1_counterexample`. -/
theorem claim_C1_amended_thm (parse : List Char → Option OpenAIChunk)
    (chunks : List (List Char)) :
    (handleRequestStream parse chunks).countP isMsgStartB ≤ 1
    ∧ startsCovered false (handleRequestStream parse chunks) = true := by
  unfold handleRequestStream
  constructor
  · rw [List.countP_append, processChunks_msCount parse chunks false []]
    cases h : (processChunks parse false [] chunks).1 <;> simp [h]
  · rw [processChunks_covered parse chunks false [] [Frame.messageStop (processChunks parse false [] chunks).1]]
    simp [startsCovered]

/-- C2.  For every streamed exchange read to normal exhaustion, exactly one
`message_stop` frame is emitted, it is the final frame, and its flag states
whether a tool call occurred during the exchange — in the source's sense of
`toolCallStarted`, i.e. whether a tool-call `content_block_start` event was
emitted.  This holds for any JSON decoding and any number of upstream chunks,
including zero. -/
theorem claim_C2_thm (parse : List Char → Option OpenAIChunk)
    (chunks : List (List Char)) :
    (handleRequestStream parse chunks).countP isMsgStopB = 1
    ∧ (handleRequestStream parse chunks).getLast?
        = some (Frame.messageStop ((handleRequestStream parse chunks).any isCBStartB)) := by
  unfold handleRequestStream
  constructor
  · rw [List.countP_append, processChunks_stop parse chunks false []]
    simp
  · rw [List.getLast?_concat]
    rw [processChunks_flag parse chunks false []]
    simp

/-! ## Credential-pool lemmas (claims C3, C4, C5) -/

theorem mapGet?_nil (c : String) : mapGet? [] c = none := rfl

theorem mapGet?_cons_pos (p : String × Nat) (rest : List (String × Nat)) (c : String)
    (hp : (p.1 == c) = true) : mapGet? (p :: rest) c = some p.2 := by
  simp [mapGet?, List.find?_cons, hp]

theorem mapGet?_cons_neg (p : String × Nat) (rest : List (String × Nat)) (c : String)
    (hp : (p.1 == c) = false) : mapGet? (p :: rest) c = mapGet? rest c := by
  simp [mapGet?, List.find?_cons, hp]

theorem mapHas_cons (p : String × Nat) (rest : List (String × Nat)) (c : String) :
    mapHas (p :: rest) c = ((p.1 == c) || mapHas rest c) := rfl

/-- A key found in an association map is found with the same time after a
filter that keeps its entry (filtering preserves order, so the first match
survives as the first match). -/
theorem mapGet?_filter (m : List (String × Nat)) (q : String × Nat → Bool)
    (c : String) (tc : Nat) (h : mapGet? m c = some tc) (hq : q (c, tc) = true) :
    mapGet? (m.filter q) c = some tc := by
  induction m with
  | nil => exact absurd h (by simp [mapGet?_nil])
  | cons p rest ih =>
    by_cases hp : (p.1 == c) = true
    · have hpc : p.1 = c := eq_of_beq hp
      have hpv : p.2 = tc := by
        rw [mapGet?_cons_pos p rest c hp] at h
        exact Option.some.inj h
      have hpe : p = (c, tc) := by
        obtain ⟨p1, p2⟩ := p
        simp only at hpc hpv
        rw [hpc, hpv]
      subst hpe
      rw [List.filter_cons, if_pos hq, mapGet?_cons_pos _ _ _ (by simp)]
    · have hpf : (p.1 == c) = false := by simpa using hp
      have h' : mapGet? rest c = some tc := by
        rwa [mapGet?_cons_neg p rest c hpf] at h
      by_cases hqp : q p = true
      · rw [List.filter_cons, if_pos hqp, mapGet?_cons_neg p _ c hpf]
        exact ih h'
      · rw [List.filter_cons, if_neg hqp]
        exact ih h'

/-- A key with a failure record satisfies `mapHas`. -/
theorem mapHas_of_get (m : List (String × Nat)) (c : String) (tc : Nat)
    (h : mapGet? m c = some tc) : mapHas m c = true := by
  induction m with
  | nil => exact absurd h (by simp [mapGet?_nil])
  | cons p rest ih =>
    rw [mapHas_cons]
    by_cases hp : (p.1 == c) = true
    · rw [hp]
      rfl
    · have hpf : (p.1 == c) = false := by simpa using hp
      have h' : mapGet? rest c = some tc := by
        rwa [mapGet?_cons_neg p rest c hpf] at h
      rw [hpf, ih h']
      rfl

/-- The in-place update of `mapSet` leaves lookups of a distinct key unchanged. -/
theorem mapGet?_mapUpdate_ne (m : List (String × Nat)) (k : String) (v : Nat)
    (c : String) (h : c ≠ k) :
    mapGet? (m.map (fun p => if p.1 == k then (k, v) else p)) c = mapGet? m c := by
  induction m with
  | nil => rfl
  | cons p rest ih =>
    by_cases hpk : (p.1 == k) = true
    · have hpk' : p.1 = k := eq_of_beq hpk
      have hkc : (k == c) = false := beq_eq_false_iff_ne.mpr (fun hkc => h hkc.symm)
      have hpc : (p.1 == c) = false := by rw [hpk']; exact hkc
      rw [List.map_cons, if_pos hpk, mapGet?_cons_neg (k, v) _ c hkc,
        mapGet?_cons_neg p rest c hpc]
      exact ih
    · have hpkf : (p.1 == k) = false := by simpa using hpk
      rw [List.map_cons, if_neg hpk]
      by_cases hpc : (p.1 == c) = true
      · rw [mapGet?_cons_pos p _ c hpc, mapGet?_cons_pos p rest c hpc]
      · have hpcf : (p.1 == c) = false := by simpa using hpc
        rw [mapGet?_cons_neg p _ c hpcf, mapGet?_cons_neg p rest c hpcf]
        exact ih

/-- The in-place update of `mapSet` makes the given key map to the new time. -/
theorem mapGet?_mapUpdate_self (m : List (String × Nat)) (k : String) (v : Nat)
    (hhas : mapHas m k = true) :
    mapGet? (m.map (fun p => if p.1 == k then (k, v) else p)) k = some v := by
  induction m with
  | nil => exact absurd hhas (by simp [mapHas])
  | cons p rest ih =>
    by_cases hpk : (p.1 == k) = true
    · rw [List.map_cons, if_pos hpk, mapGet?_cons_pos (k, v) _ k (by simp)]
    · have hpkf : (p.1 == k) = false := by simpa using hpk
      have hr : mapHas rest k = true := by
        rw [mapHas_cons, hpkf] at hhas
        simpa using hhas
      rw [List.map_cons, if_neg hpk, mapGet?_cons_neg p _ k hpkf]
      exact ih hr

/-- `mapSet` stores the given time for the given key. -/
theorem mapGet?_mapSet_self (m : List (String × Nat)) (k : String) (v : Nat) :
    mapGet? (mapSet m k v) k = some v := by
  by_cases hhas : mapHas m k = true
  · rw [mapSet, if_pos hhas]
    exact mapGet?_mapUpdate_self m k v hhas
  · rw [mapSet, if_neg hhas]
    have hfind : m.find? (fun p => p.1 == k) = none := by
      rw [List.find?_eq_none]
      intro p hp hbeq
      exact hhas (by
        simp only [mapHas, List.any_eq_true]
        exact ⟨p, hp, hbeq⟩)
    unfold mapGet?
    rw [List.find?_append, hfind]
    simp [List.find?]

/-- `mapSet` on a different key does not change a lookup. -/
theorem mapGet?_mapSet_ne (m : List (String × Nat)) (k : String) (v : Nat)
    (c : String) (h : c ≠ k) : mapGet? (mapSet m k v) c = mapGet? m c := by
  by_cases hhas : mapHas m k = true
  · rw [mapSet, if_pos hhas]
    exact mapGet?_mapUpdate_ne m k v c h
  · rw [mapSet, if_neg hhas]
    have hkc : (k == c) = false := beq_eq_false_iff_ne.mpr (fun hkc => h hkc.symm)
    unfold mapGet?
    rw [List.find?_append]
    have h2 : List.find? (fun p => p.1 == c) [(k, v)] = none := by
      simp [List.find?, hkc]
    rw [h2]
    cases m.find? (fun p => p.1 == c) <;> rfl

/-- When at least one credential is eligible, `getKey` selects from the
eligible list by cursor modulo its length, bumps the cursor, and keeps the
purged failure map. -/
theorem getKey_spec (st : KeyManager) (now : Nat) (h : availableAt st now ≠ []) :
    getKey st now
      = ((availableAt st now).get? (st.currentIndex % (availableAt st now).length),
         { st with currentIndex := st.currentIndex + 1,
                   failedKeys := purgeMap st.failedKeys now }) := by
  have h' : st.keys.filter (fun k => !(mapHas (purgeMap st.failedKeys now) k)) ≠ [] := h
  have hcond : (st.keys.filter (fun k => !(mapHas (purgeMap st.failedKeys now) k))).isEmpty
      = false := by
    simp [List.isEmpty_iff, h']
  simp only [getKey, hcond, Bool.false_eq_true, if_false, availableAt]

/-- `getKey` never changes the key list. -/
theorem getKey_keys (st : KeyManager) (now : Nat) : (getKey st now).2.keys = st.keys := by
  simp only [getKey]
  split <;> rfl

/-- `markKeyAsFailed` never changes the key list. -/
theorem markKeyAsFailed_keys (st : KeyManager) (key : String) (now : Nat) :
    (markKeyAsFailed st key now).keys = st.keys := rfl

/-- A credential with an unexpired failure record is never selected while at
least one credential is eligible: the purge of lines 81-87 keeps its record,
so line 90 excludes it from the eligible list the selection indexes into. -/
theorem getKey_avoids_failed (st : KeyManager) (now : Nat) (c : String) (tc : Nat)
    (hrec : mapGet? st.failedKeys c = some tc)
    (hwin : now - tc ≤ FAILURE_TIMEOUT)
    (hav : availableAt st now ≠ []) :
    (getKey st now).1 ≠ some c := by
  have hpurge : mapGet? (purgeMap st.failedKeys now) c = some tc :=
    mapGet?_filter _ _ _ _ hrec (decide_eq_true hwin)
  have hhas : mapHas (purgeMap st.failedKeys now) c = true := mapHas_of_get _ _ _ hpurge
  rw [getKey_spec st now hav]
  intro hc
  have hmem : c ∈ availableAt st now := List.get?_mem hc
  unfold availableAt at hmem
  rw [List.mem_filter] at hmem
  rw [hhas] at hmem
  simp at hmem

/-- C3 counterexample trace: the pool `["alpha", "beta"]` with both keys
marked failed at time 0; then three `getKey` calls at time 0. -/
def c3pool0 : KeyManager :=
  markKeyAsFailed (markKeyAsFailed (mkManager ["alpha", "beta"]) "alpha" 0) "beta" 0

/-- State after the first `getKey` call (the forced full reset). -/
def c3pool1 : KeyManager := (getKey c3pool0 0).2

/-- State after the second `getKey` call. -/
def c3pool2 : KeyManager := (getKey c3pool1 0).2

/-- C3 counterexample.  After `markFailed("alpha")` at time 0, the third
`getKey` call — still at time 0, well inside the 60-second window — returns
`"alpha"` even though at the moment of that selection no other credential is
marked failed (`c3pool2.failedKeys = []`): the first call found all keys
failed and performed the full reset, which erased the quarantine, so later
selections return the failed key without the "all others failed" condition
holding at selection time.  (The first call returns `"alpha"` under the
claim's forced-fallback exception; the third violates the claim as stated.) -/
theorem claim_C3_counterexample :
    (getKey c3pool0 0).1 = some "alpha"
    ∧ (getKey c3pool1 0).1 = some "beta"
    ∧ (getKey c3pool2 0).1 = some "alpha"
    ∧ c3pool2.failedKeys = []
    ∧ (0 : Nat) - 0 ≤ FAILURE_TIMEOUT := by
  decide

/-- C3 (amended).  A credential `c` with a failure record from time `t` is
never returned by `getKey` as long as (a) every operation happens within the
recovery window after `t`, and (b) no `getKey` call in between finds the
eligible set empty (the full-reset fallback, which erases all failure records
— after it fires, `c` may be returned again immediately, as shown by
`claim_C3_counterexample`).  Arbitrary further `markFailed` calls are
allowed. -/
theorem claim_C3_amended_thm (ops : List PoolOp) :
    ∀ (st : KeyManager) (c : String) (t tc : Nat),
      mapGet? st.failedKeys c = some tc → t ≤ tc →
      (∀ op ∈ ops, t ≤ op.time ∧ op.time ≤ t + FAILURE_TIMEOUT) →
      opsNoReset st ops = true →
      some c ∉ (runOps st ops).2 := by
  induction ops with
  | nil =>
    intro st c t tc _ _ _ _
    simp [runOps]
  | cons op rest ih =>
    intro st c t tc hrec htc htimes hnr
    cases op with
    | select now =>
      have htime := htimes (.select now) (by simp)
      simp only [PoolOp.time] at htime
      have hnr' : (!(availableAt st now).isEmpty && opsNoReset (getKey st now).2 rest)
          = true := hnr
      rw [Bool.and_eq_true] at hnr'
      have hav : availableAt st now ≠ [] := by
        have h1 := hnr'.1
        simp only [Bool.not_eq_true'] at h1
        simpa [List.isEmpty_iff] using h1
      have hwin : now - tc ≤ FAILURE_TIMEOUT := by omega
      simp only [runOps]
      intro hmem
      rcases List.mem_cons.mp hmem with h1 | h2
      · exact getKey_avoids_failed st now c tc hrec hwin hav h1.symm
      · have hrec' : mapGet? ((getKey st now).2).failedKeys c = some tc := by
          rw [getKey_spec st now hav]
          exact mapGet?_filter _ _ _ _ hrec (decide_eq_true hwin)
        exact absurd h2 (ih (getKey st now).2 c t tc hrec' htc
          (fun op hop => htimes op (List.mem_cons_of_mem _ hop)) hnr'.2)
    | markFailed k now =>
      have htime := htimes (.markFailed k now) (by simp)
      simp only [PoolOp.time] at htime
      simp only [runOps]
      have hnr' : opsNoReset (markKeyAsFailed st k now) rest = true := hnr
      by_cases hck : c = k
      · subst hck
        have hrec' : mapGet? (markKeyAsFailed st c now).failedKeys c = some now := by
          unfold markKeyAsFailed
          exact mapGet?_mapSet_self _ _ _
        exact ih _ c t now hrec' htime.1
          (fun op hop => htimes op (List.mem_cons_of_mem _ hop)) hnr'
      · have hrec' : mapGet? (markKeyAsFailed st k now).failedKeys c = some tc := by
          unfold markKeyAsFailed
          rw [mapGet?_mapSet_ne _ _ _ _ hck]
          exact hrec
        exact ih _ c t tc hrec' htc
          (fun op hop => htimes op (List.mem_cons_of_mem _ hop)) hnr'

/-- The pool of the C3-amended witness: `"alpha"` marked failed at time 5. -/
def c3wPool : KeyManager := markKeyAsFailed (mkManager ["alpha", "beta"]) "alpha" 5

/-- The operations of the C3-amended witness, all within the window after 5. -/
def c3wOps : List PoolOp := [.select 10, .markFailed "alpha" 20, .select 30]

/-- Witness for `claim_C3_amended_thm` at a concrete pool and trace. -/
theorem claim_C3_amended_witness : some "alpha" ∉ (runOps c3wPool c3wOps).2 :=
  claim_C3_amended_thm c3wOps c3wPool "alpha" 5 5 (by decide) (by decide)
    (by decide) (by decide)

/-- Consecutive cursor values index different positions modulo any length ≥ 2. -/
theorem succ_mod_ne (i n : Nat) (h : 2 ≤ n) : (i + 1) % n ≠ i % n := by
  have h1 : (i + 1) % n = (i % n + 1) % n := by
    conv_lhs => rw [Nat.add_mod, Nat.mod_eq_of_lt (show 1 < n by omega)]
  have hr : i % n < n := Nat.mod_lt _ (by omega)
  by_cases hc : i % n + 1 < n
  · rw [h1, Nat.mod_eq_of_lt hc]; omega
  · have he : i % n + 1 = n := by omega
    rw [h1, he, Nat.mod_self]; omega

/-- The state reached by three `getKey` calls on a fresh 3-key pool. -/
def c4stA : KeyManager :=
  (runOps (mkManager ["a", "b", "c"]) [.select 0, .select 0, .select 0]).1

/-- `c4stA` after one more `getKey` call and a `markFailed("c")`. -/
def c4stB : KeyManager := markKeyAsFailed (getKey c4stA 0).2 "c" 0

/-- C4 counterexample.  Starting from a fresh pool over `["a", "b", "c"]`,
after three selections the cursor is 3.  The fourth selection sees 3 eligible
keys and returns `"a"` (cursor 3 mod 3).  `"c"` is then marked failed, so the
fifth selection sees 2 eligible keys and returns `"a"` again (cursor 4 mod 2):
two consecutive selections with ≥ 2 eligible credentials at each call return
the same credential although not all credentials are exhausted.  The cursor is
taken modulo the *current* eligible count, so a change in the eligible set
between calls can re-select the same key. -/
theorem claim_C4_counterexample :
    (getKey c4stA 0).1 = some "a"
    ∧ (getKey c4stB 0).1 = some "a"
    ∧ (availableAt c4stA 0).length = 3
    ∧ (availableAt c4stB 0).length = 2 := by
  decide

/-- C4 (amended).  Two consecutive selections do return different credentials
when the eligible list is the same at both calls (in particular when no
failure is recorded or expires in between), has at least two entries, and the
configured keys are pairwise distinct.  `st2` is any state reached from `st`
after its selection (cursor advanced by one; `markFailed` calls do not touch
the cursor). -/
theorem claim_C4_amended_thm (st st2 : KeyManager) (now now2 : Nat)
    (hnd : st.keys.Nodup)
    (hidx : st2.currentIndex = st.currentIndex + 1)
    (hav : availableAt st2 now2 = availableAt st now)
    (hlen : 2 ≤ (availableAt st now).length) :
    (getKey st now).1.isSome ∧ (getKey st2 now2).1.isSome
    ∧ (getKey st now).1 ≠ (getKey st2 now2).1 := by
  have hne : availableAt st now ≠ [] := by
    intro he
    rw [he] at hlen
    simp at hlen
  have hne2 : availableAt st2 now2 ≠ [] := by rw [hav]; exact hne
  have hAnd : (availableAt st now).Nodup := by
    unfold availableAt
    exact hnd.filter _
  have hlt1 : st.currentIndex % (availableAt st now).length < (availableAt st now).length :=
    Nat.mod_lt _ (by omega)
  have hlt2 : (st.currentIndex + 1) % (availableAt st now).length
      < (availableAt st now).length := Nat.mod_lt _ (by omega)
  have h1 : (getKey st now).1
      = some ((availableAt st now).get ⟨st.currentIndex % (availableAt st now).length, hlt1⟩) := by
    rw [getKey_spec st now hne]
    exact List.get?_eq_get hlt1
  have h2 : (getKey st2 now2).1
      = some ((availableAt st now).get
          ⟨(st.currentIndex + 1) % (availableAt st now).length, hlt2⟩) := by
    rw [getKey_spec st2 now2 hne2]
    simp only [hav, hidx]
    exact List.get?_eq_get hlt2
  refine ⟨by rw [h1]; rfl, by rw [h2]; rfl, ?_⟩
  rw [h1, h2]
  intro hc
  have hg := Option.some.inj hc
  have hfin := (List.Nodup.get_inj_iff hAnd).mp hg
  have hv : st.currentIndex % (availableAt st now).length
      = (st.currentIndex + 1) % (availableAt st now).length := congrArg Fin.val hfin
  exact succ_mod_ne st.currentIndex (availableAt st now).length hlen hv.symm

/-- Witness for `claim_C4_amended_thm`: fresh two-key pool, consecutive calls. -/
theorem claim_C4_amended_witness :
    (getKey (mkManager ["a", "b"]) 0).1.isSome
    ∧ (getKey (getKey (mkManager ["a", "b"]) 0).2 0).1.isSome
    ∧ (getKey (mkManager ["a", "b"]) 0).1 ≠ (getKey (getKey (mkManager ["a", "b"]) 0).2 0).1 :=
  claim_C4_amended_thm (mkManager ["a", "b"]) (getKey (mkManager ["a", "b"]) 0).2 0 0
    (by decide) (by decide) (by decide) (by decide)

/-- Dropping `i` elements of a list with `i` in range exposes the `i`-th
element as the head. -/
theorem drop_eq_get_cons (l : List String) (i : Nat) (h : i < l.length) :
    l.drop i = l.get ⟨i, h⟩ :: l.drop (i + 1) := by
  induction l generalizing i with
  | nil => simp at h
  | cons a t ih =>
    cases i with
    | zero => simp
    | succ n =>
      have hn : n < t.length := by simpa using h
      simp only [List.drop_succ_cons, List.get_cons_succ]
      exact ih n hn

/-- With an empty failure map every key is eligible. -/
theorem availableAt_noFailures (keys : List String) (idx now : Nat) :
    availableAt ⟨keys, idx, []⟩ now = keys := by
  unfold availableAt purgeMap mapHas
  simp

/-- Running `m` consecutive failure-free `getKey` calls from cursor `i`
returns the keys from position `i` on, one per call, when `i + m` equals the
pool size. -/
theorem runSelects_fresh (keys : List String) (hne : keys ≠ []) :
    ∀ (m i : Nat), i + m = keys.length →
      (runOps ⟨keys, i, []⟩ (List.replicate m (.select 0))).2 = (keys.drop i).map some := by
  intro m
  induction m with
  | zero =>
    intro i hi
    have : keys.drop i = [] := by
      apply List.drop_eq_nil_of_le
      omega
    simp [runOps, this]
  | succ k ih =>
    intro i hi
    have hilt : i < keys.length := by omega
    have hav : availableAt ⟨keys, i, []⟩ 0 ≠ [] := by
      rw [availableAt_noFailures]
      exact hne
    have hspec := getKey_spec ⟨keys, i, []⟩ 0 hav
    rw [availableAt_noFailures] at hspec
    have hpurge : purgeMap ([] : List (String × Nat)) 0 = [] := rfl
    rw [hpurge] at hspec
    have hmod : i % keys.length = i := Nat.mod_eq_of_lt hilt
    rw [hmod] at hspec
    have hget : keys.get? i = some (keys.get ⟨i, hilt⟩) := List.get?_eq_get hilt
    rw [hget] at hspec
    simp only [List.replicate, runOps, hspec]
    rw [ih (i + 1) (by omega)]
    rw [drop_eq_get_cons keys i hilt, List.map_cons]

/-- C5.  On a pool of `n ≥ 1` pairwise-distinct credentials with no failures,
the first `n` `getKey` calls return exactly the configured keys in order — so
every credential is visited once before any credential is returned a second
time — and those `n` selections contain no repeat. -/
theorem claim_C5_thm (keys : List String) (h1 : keys ≠ []) (hnd : keys.Nodup) :
    selections keys keys.length = keys.map some
    ∧ (selections keys keys.length).Nodup := by
  have hmain : selections keys keys.length = keys.map some := by
    unfold selections mkManager
    rw [runSelects_fresh keys h1 keys.length 0 (by omega)]
    rfl
  refine ⟨hmain, ?_⟩
  rw [hmain]
  exact hnd.map (Option.some_injective String)

/-- Witness for `claim_C5_thm` on a concrete three-key pool. -/
theorem claim_C5_witness :
    selections ["k1", "k2", "k3"] (["k1", "k2", "k3"].length)
      = [some "k1", some "k2", some "k3"]
    ∧ (selections ["k1", "k2", "k3"] (["k1", "k2", "k3"].length)).Nodup := by
  have h := claim_C5_thm ["k1", "k2", "k3"] (by decide) (by decide)
  exact ⟨h.1.trans rfl, h.2⟩

/-! ## Claim C6: generation-parameter defaulting in convertClaudeToOpenAI -/

/-- The C6 counterexample request: `max_tokens` is present with value 0. -/
def c6cex : ClaudeRequest :=
  { model := "claude-3-5-haiku-20241022"
    messages := [⟨"user", .str "hi"⟩]
    max_tokens := some 0 }

/-- C6 counterexample.  The conversion uses the JS `||` operator, which treats
the number 0 as falsy: a request that explicitly sets `max_tokens: 0` is
rewritten to 4096 instead of being carried through unchanged, so the defaults
are not applied "exactly when the field is absent". -/
theorem claim_C6_counterexample :
    c6cex.max_tokens = some 0
    ∧ (convertClaudeToOpenAI c6cex).max_tokens = 4096
    ∧ (convertClaudeToOpenAI c6cex).max_tokens ≠ 0 := by
  refine ⟨rfl, rfl, ?_⟩
  decide

/-- C6 (amended).  `convertClaudeToOpenAI` sets `max_tokens` to 4096 when the
field is absent *or equal to the falsy value 0*, and carries any non-zero
value through; likewise `temperature` defaults to 0.7 when absent or 0 and is
carried through otherwise; `stream` defaults to `false` exactly when absent
and is carried through unchanged when present (for booleans `b || false = b`,
so the claim's wording was accurate for `stream`). -/
theorem claim_C6_amended_thm (req : ClaudeRequest) :
    ((req.max_tokens = none ∨ req.max_tokens = some 0) →
      (convertClaudeToOpenAI req).max_tokens = 4096)
    ∧ (∀ v, req.max_tokens = some v → v ≠ 0 → (convertClaudeToOpenAI req).max_tokens = v)
    ∧ ((req.temperature = none ∨ req.temperature = some 0) →
      (convertClaudeToOpenAI req).temperature = 0.7)
    ∧ (∀ q, req.temperature = some q → q ≠ 0 → (convertClaudeToOpenAI req).temperature = q)
    ∧ (req.stream = none → (convertClaudeToOpenAI req).stream = false)
    ∧ (∀ b, req.stream = some b → (convertClaudeToOpenAI req).stream = b) := by
  refine ⟨?_, ?_, ?_, ?_, ?_, ?_⟩
  · rintro (h | h) <;> simp [convertClaudeToOpenAI, numOr, h]
  · intro v hv hnz
    simp [convertClaudeToOpenAI, numOr, hv, hnz]
  · rintro (h | h) <;> simp [convertClaudeToOpenAI, ratOr, h]
  · intro q hq hnz
    simp [convertClaudeToOpenAI, ratOr, hq, hnz]
  · intro h
    simp [convertClaudeToOpenAI, boolOr, h]
  · intro b hb
    simp [convertClaudeToOpenAI, boolOr, hb]

/-- The C6-amended witness request: absent `max_tokens`, non-zero
`temperature`, explicit `stream`. -/
def c6w : ClaudeRequest :=
  { model := "m"
    messages := []
    temperature := some 2
    stream := some true }

/-- Witness for `claim_C6_amended_thm` at a concrete request. -/
theorem claim_C6_amended_witness :
    (convertClaudeToOpenAI c6w).max_tokens = 4096
    ∧ (convertClaudeToOpenAI c6w).temperature = 2
    ∧ (convertClaudeToOpenAI c6w).stream = true :=
  ⟨(claim_C6_amended_thm c6w).1 (Or.inl rfl),
   (claim_C6_amended_thm c6w).2.2.2.1 2 rfl (by decide),
   (claim_C6_amended_thm c6w).2.2.2.2.2 true rfl⟩

/-! ## Claims C7 and C8: makeRequestWithRetry -/

/-- C7.  Per-attempt failure handling of `makeRequestWithRetry`, for an
attempt whose `getKey` selected `key` (post-selection pool state `st1`).
Final attempt (`attempt = maxRetries`, first four parts): a non-2xx response
other than 401/403 leaves the failure map exactly as `getKey` left it and
records no `markKeyAsFailed` call; a 401 or 403 marks the key with reason
`HTTP <status>`; a network exception marks the key with the exception message
as the reason.  Non-final attempts (last two parts): the identical
classification runs and the run continues from the resulting pool state —
unchanged for a non-auth HTTP failure, marked for a network exception. -/
theorem claim_C7_thm (m : Nat) (st st1 : KeyManager) (now : Nat) (key : String)
    (rest : List (Nat × FetchOutcome))
    (hsel : getKey st now = (some key, st1)) :
    (∀ s b, respOk s = false → s ≠ 401 → s ≠ 403 →
      makeRequestWithRetry m st m ((now, .response s b) :: rest)
        = ⟨.response s b, st1, ["Bearer " ++ key], []⟩)
    ∧ (∀ b, makeRequestWithRetry m st m ((now, .response 401 b) :: rest)
        = ⟨.response 401 b, markKeyAsFailed st1 key now, ["Bearer " ++ key],
           [⟨key, "HTTP 401"⟩]⟩)
    ∧ (∀ b, makeRequestWithRetry m st m ((now, .response 403 b) :: rest)
        = ⟨.response 403 b, markKeyAsFailed st1 key now, ["Bearer " ++ key],
           [⟨key, "HTTP 403"⟩]⟩)
    ∧ (∀ msg, makeRequestWithRetry m st m ((now, .network msg) :: rest)
        = ⟨.thrown msg, markKeyAsFailed st1 key now, ["Bearer " ++ key], [⟨key, msg⟩]⟩)
    ∧ (∀ a s b, a ≠ m → respOk s = false → s ≠ 401 → s ≠ 403 →
      makeRequestWithRetry m st a ((now, .response s b) :: rest)
        = ⟨(makeRequestWithRetry m st1 (a + 1) rest).result,
           (makeRequestWithRetry m st1 (a + 1) rest).state,
           ("Bearer " ++ key) :: (makeRequestWithRetry m st1 (a + 1) rest).fetches,
           (makeRequestWithRetry m st1 (a + 1) rest).marks⟩)
    ∧ (∀ a msg, a ≠ m →
      makeRequestWithRetry m st a ((now, .network msg) :: rest)
        = ⟨(makeRequestWithRetry m (markKeyAsFailed st1 key now) (a + 1) rest).result,
           (makeRequestWithRetry m (markKeyAsFailed st1 key now) (a + 1) rest).state,
           ("Bearer " ++ key)
             :: (makeRequestWithRetry m (markKeyAsFailed st1 key now) (a + 1) rest).fetches,
           ⟨key, msg⟩
             :: (makeRequestWithRetry m (markKeyAsFailed st1 key now) (a + 1) rest).marks⟩) := by
  refine ⟨?_, ?_, ?_, ?_, ?_, ?_⟩
  · intro s b hok h401 h403
    simp [makeRequestWithRetry, hsel, classifyOutcome, hok, h401, h403]
  · intro b
    simp [makeRequestWithRetry, hsel, classifyOutcome, respOk]
    rfl
  · intro b
    simp [makeRequestWithRetry, hsel, classifyOutcome, respOk]
    rfl
  · intro msg
    simp [makeRequestWithRetry, hsel, classifyOutcome]
  · intro a s b ha hok h401 h403
    simp [makeRequestWithRetry, hsel, classifyOutcome, hok, h401, h403, ha]
  · intro a msg ha
    simp [makeRequestWithRetry, hsel, classifyOutcome, ha]

/-- The two-key pool of the C7 witness. -/
def c7wPool : KeyManager := mkManager ["kA", "kB"]

/-- Witness for `claim_C7_thm`: a one-attempt run against `c7wPool` with an
HTTP 500 outcome (pool untouched) and with a network exception (key marked
with the exception message as reason). -/
theorem claim_C7_witness :
    makeRequestWithRetry 1 c7wPool 1 [(0, .response 500 "oops")]
      = ⟨.response 500 "oops", ⟨["kA", "kB"], 1, []⟩, ["Bearer kA"], []⟩
    ∧ makeRequestWithRetry 1 c7wPool 1 [(0, .network "boom")]
      = ⟨.thrown "boom", markKeyAsFailed ⟨["kA", "kB"], 1, []⟩ "kA" 0, ["Bearer kA"],
         [⟨"kA", "boom"⟩]⟩ :=
  ⟨(claim_C7_thm 1 c7wPool ⟨["kA", "kB"], 1, []⟩ 0 "kA" [] (by decide)).1 500 "oops"
      (by decide) (by decide) (by decide),
   (claim_C7_thm 1 c7wPool ⟨["kA", "kB"], 1, []⟩ 0 "kA" [] (by decide)).2.2.2.1 "boom"⟩

/-- Whether a fetch outcome is a failed attempt (non-2xx response or network
exception). -/
def isFailureOutcome : FetchOutcome → Bool
  | .response status _ => !respOk status
  | .network _ => true

/-- Failure classification never changes the key list. -/
theorem classifyOutcome_keys (st : KeyManager) (key : String) (now : Nat)
    (oc : FetchOutcome) : (classifyOutcome st key now oc).1.keys = st.keys := by
  cases oc with
  | response s b =>
    simp only [classifyOutcome]
    split <;> rfl
  | network msg => rfl

/-- On a non-empty pool, `getKey` always returns a key (either from the
eligible list or, after the full reset, from the full list). -/
theorem getKey_isSome (st : KeyManager) (now : Nat) (h : st.keys ≠ []) :
    ∃ k, (getKey st now).1 = some k := by
  have hlen : st.keys.length ≠ 0 := by
    simpa [List.length_eq_zero] using h
  by_cases he : (availableAt st now) = []
  · have hcond : (st.keys.filter (fun k => !(mapHas (purgeMap st.failedKeys now) k))).isEmpty
        = true := by
      have he' : st.keys.filter (fun k => !(mapHas (purgeMap st.failedKeys now) k)) = [] := he
      simp [List.isEmpty_iff, he']
    have hlt : st.currentIndex % st.keys.length < st.keys.length := Nat.mod_lt _ (by omega)
    refine ⟨st.keys.get ⟨st.currentIndex % st.keys.length, hlt⟩, ?_⟩
    simp only [getKey, hcond, if_true]
    exact List.get?_eq_get hlt
  · have hlenA : (availableAt st now).length ≠ 0 := by
      simpa [List.length_eq_zero] using he
    have hlt : st.currentIndex % (availableAt st now).length < (availableAt st now).length :=
      Nat.mod_lt _ (by omega)
    refine ⟨(availableAt st now).get ⟨st.currentIndex % (availableAt st now).length, hlt⟩, ?_⟩
    rw [getKey_spec st now he]
    exact List.get?_eq_get hlt

/-- Exhaustion lemma behind C8: if every attempt of a run fails, the run's
result is determined by the last outcome — the last HTTP error's status and
body, surfaced verbatim, or the last network exception, re-thrown. -/
theorem retry_exhaust_aux (m : Nat) :
    ∀ (outcomes : List (Nat × FetchOutcome)) (st : KeyManager) (a : Nat),
      st.keys ≠ [] → a + outcomes.length = m + 1 →
      (∀ p ∈ outcomes, isFailureOutcome p.2 = true) →
      (∀ now s b, outcomes.getLast? = some (now, .response s b) →
        (makeRequestWithRetry m st a outcomes).result = .response s b)
      ∧ (∀ now msg, outcomes.getLast? = some (now, .network msg) →
        (makeRequestWithRetry m st a outcomes).result = .thrown msg) := by
  intro outcomes
  induction outcomes with
  | nil =>
    intro st a _ _ _
    refine ⟨?_, ?_⟩
    · intro now s b h
      simp at h
    · intro now msg h
      simp at h
  | cons p rest ih =>
    obtain ⟨now, oc⟩ := p
    intro st a hkeys hlen hfail
    obtain ⟨key, hkey⟩ := getKey_isSome st now hkeys
    rcases hsel : getKey st now with ⟨sel1, st1⟩
    rw [hsel] at hkey
    simp only at hkey
    subst hkey
    have hkeys1 : st1.keys ≠ [] := by
      have hk := getKey_keys st now
      rw [hsel] at hk
      simp only at hk
      rw [hk]
      exact hkeys
    cases rest with
    | nil =>
      have ha : a = m := by
        simp at hlen
        omega
      subst ha
      cases oc with
      | response s b =>
        have hok : respOk s = false := by
          have := hfail (now, .response s b) (by simp)
          simpa [isFailureOutcome] using this
        refine ⟨?_, ?_⟩
        · intro now' s' b' hlast
          simp only [List.getLast?_singleton, Option.some.injEq, Prod.mk.injEq,
            FetchOutcome.response.injEq] at hlast
          obtain ⟨-, hs, hb⟩ := hlast
          subst hs
          subst hb
          simp [makeRequestWithRetry, hsel, hok]
        · intro now' msg hlast
          simp at hlast
      | network msg =>
        refine ⟨?_, ?_⟩
        · intro now' s' b' hlast
          simp at hlast
        · intro now' msg' hlast
          simp only [List.getLast?_singleton, Option.some.injEq, Prod.mk.injEq,
            FetchOutcome.network.injEq] at hlast
          obtain ⟨-, hm⟩ := hlast
          subst hm
          simp [makeRequestWithRetry, hsel]
    | cons q qs =>
      have ha : a ≠ m := by
        simp at hlen
        omega
      have hfail' : ∀ x ∈ q :: qs, isFailureOutcome x.2 = true :=
        fun x hx => hfail x (List.mem_cons_of_mem _ hx)
      cases oc with
      | response s b =>
        have hok : respOk s = false := by
          have := hfail (now, .response s b) (by simp)
          simpa [isFailureOutcome] using this
        have hkeys2 : ((classifyOutcome st1 key now (.response s b)).1).keys ≠ [] := by
          rw [classifyOutcome_keys]
          exact hkeys1
        have hih := ih (classifyOutcome st1 key now (.response s b)).1 (a + 1)
          hkeys2 (by simp at hlen ⊢; omega) hfail'
        have hstep : (makeRequestWithRetry m st a ((now, .response s b) :: q :: qs)).result
            = (makeRequestWithRetry m (classifyOutcome st1 key now (.response s b)).1
                (a + 1) (q :: qs)).result := by
          conv_lhs => rw [makeRequestWithRetry]
          simp only [hsel, hok, Bool.false_eq_true, if_false, ha, ite_false]
        refine ⟨?_, ?_⟩
        · intro now' s' b' hlast
          rw [List.getLast?_cons_cons] at hlast
          rw [hstep]
          exact hih.1 now' s' b' hlast
        · intro now' msg hlast
          rw [List.getLast?_cons_cons] at hlast
          rw [hstep]
          exact hih.2 now' msg hlast
      | network msg =>
        have hkeys2 : ((classifyOutcome st1 key now (.network msg)).1).keys ≠ [] := by
          rw [classifyOutcome_keys]
          exact hkeys1
        have hih := ih (classifyOutcome st1 key now (.network msg)).1 (a + 1)
          hkeys2 (by simp at hlen ⊢; omega) hfail'
        have hstep : (makeRequestWithRetry m st a ((now, .network msg) :: q :: qs)).result
            = (makeRequestWithRetry m (classifyOutcome st1 key now (.network msg)).1
                (a + 1) (q :: qs)).result := by
          conv_lhs => rw [makeRequestWithRetry]
          simp only [hsel, ha, ite_false]
        refine ⟨?_, ?_⟩
        · intro now' s' b' hlast
          rw [List.getLast?_cons_cons] at hlast
          rw [hstep]
          exact hih.1 now' s' b' hlast
        · intro now' msg' hlast
          rw [List.getLast?_cons_cons] at hlast
          rw [hstep]
          exact hih.2 now' msg' hlast

/-- C8.  A full run of `makeRequestWithRetry` (first attempt 1, one recorded
fetch outcome per attempt, non-empty pool) in which every attempt fails:
if the last outcome is an HTTP error response, the caller receives a response
with that status and body text; if the last outcome is a network exception,
that exception propagates unwrapped.  The source default for `maxRetries`
is 3. -/
theorem claim_C8_thm (m : Nat) (st : KeyManager) (outcomes : List (Nat × FetchOutcome))
    (hkeys : st.keys ≠ [])
    (hlen : outcomes.length = m)
    (hfail : ∀ p ∈ outcomes, isFailureOutcome p.2 = true) :
    (∀ now s b, outcomes.getLast? = some (now, .response s b) →
      (makeRequestWithRetry m st 1 outcomes).result = .response s b)
    ∧ (∀ now msg, outcomes.getLast? = some (now, .network msg) →
      (makeRequestWithRetry m st 1 outcomes).result = .thrown msg) :=
  retry_exhaust_aux m outcomes st 1 hkeys (by omega) hfail

/-- The outcome list of the C8 witness: three straight HTTP 500 responses. -/
def c8wOutcomes : List (Nat × FetchOutcome) :=
  [(0, .response 500 "e1"), (1, .response 500 "e2"), (2, .response 500 "e3")]

/-- Witness for `claim_C8_thm`: three consecutive HTTP 500 responses exhaust
the default three attempts and the last 500 body is surfaced verbatim. -/
theorem claim_C8_witness :
    (makeRequestWithRetry 3 (mkManager ["k1"]) 1 c8wOutcomes).result
      = .response 500 "e3" :=
  (claim_C8_thm 3 (mkManager ["k1"]) c8wOutcomes (by decide) (by decide)
    (by decide)).1 2 500 "e3" (by decide)

/-! ## Claim C9: convertOpenAIToClaude on non-tool responses -/

/-- The C9 counterexample response: the first choice's message carries a
`tool_calls` field holding an *empty* array, and `finish_reason` is `stop`. -/
def c9cex : OAIResponse :=
  { id := some "r1"
    model := some "mod"
    choices := [{ message := some { content := some "hello", tool_calls := some [] }
                  finish_reason := some "stop" }] }

/-- C9 counterexample.  A first choice that carries zero tool invocations
(`tool_calls: []`) is *not* converted to a single text block with
`end_turn`: in JS an empty array is truthy, so `choice.message?.tool_calls`
selects the tool branch, producing an empty content list and
`stop_reason: "tool_use"`, and dropping the message text entirely. -/
theorem claim_C9_counterexample :
    (c9cex.choices.head?.bind OAIChoice.message).bind OAIMessageOut.tool_calls = some []
    ∧ convertOpenAIToClaude 0 c9cex
        = .converted
          { id := "r1", type := "message", role := "assistant"
            content := []
            model := some "mod", stop_reason := some "tool_use", stop_sequence := none
            usage := none } := by
  refine ⟨rfl, ?_⟩
  rfl

/-- C9 (amended).  For a response whose first choice has no `tool_calls`
field at all (absent/null, or no message object), the conversion yields a
single text content block carrying the message text — the empty string when
the text is absent — with stop reason `end_turn` exactly when the outbound
finish reason is `stop`, and the finish reason passed through unchanged
otherwise. -/
theorem claim_C9_amended_thm (now : Nat) (r : OAIResponse) (choice : OAIChoice)
    (rest : List OAIChoice)
    (hc : r.choices = choice :: rest)
    (hnt : choice.message.bind OAIMessageOut.tool_calls = none) :
    ∃ m, convertOpenAIToClaude now r = .converted m
      ∧ (∀ t, choice.message.bind OAIMessageOut.content = some t →
          m.content = [ClaudeBlock.text t] ∨ (t = "" ∧ m.content = [ClaudeBlock.text ""]))
      ∧ (choice.message.bind OAIMessageOut.content = none →
          m.content = [ClaudeBlock.text ""])
      ∧ (choice.finish_reason = some "stop" → m.stop_reason = some "end_turn")
      ∧ (choice.finish_reason ≠ some "stop" → m.stop_reason = choice.finish_reason) := by
  cases hmsg : choice.message with
  | none =>
    refine ⟨{ id := strOr r.id ("msg_" ++ toString now), type := "message"
              role := "assistant", content := [.text ""], model := r.model
              stop_reason :=
                if choice.finish_reason = some "stop" then some "end_turn"
                else choice.finish_reason
              stop_sequence := none
              usage := r.usage.map (fun u => ⟨u.prompt_tokens, u.completion_tokens⟩) },
      ?_, ?_, ?_, ?_, ?_⟩
    · unfold convertOpenAIToClaude
      rw [hc]
      simp only [List.head?_cons, hmsg]
    · intro t ht
      simp at ht
    · intro ht
      rfl
    · intro hf
      simp only [hf]
      simp
    · intro hf
      simp only
      rw [if_neg hf]
  | some msg =>
    have hntc : msg.tool_calls = none := by
      rw [hmsg] at hnt
      simpa using hnt
    refine ⟨{ id := strOr r.id ("msg_" ++ toString now), type := "message"
              role := "assistant", content := [.text (strOr msg.content "")]
              model := r.model
              stop_reason :=
                if choice.finish_reason = some "stop" then some "end_turn"
                else choice.finish_reason
              stop_sequence := none
              usage := r.usage.map (fun u => ⟨u.prompt_tokens, u.completion_tokens⟩) },
      ?_, ?_, ?_, ?_, ?_⟩
    · unfold convertOpenAIToClaude
      rw [hc]
      simp only [List.head?_cons, hmsg, hntc]
    · intro t ht
      simp only [Option.some_bind] at ht
      by_cases hte : t = ""
      · right
        subst hte
        simp [strOr, ht]
      · left
        simp [strOr, ht, hte]
    · intro ht
      simp only [Option.some_bind] at ht
      simp [strOr, ht]
    · intro hf
      simp only [hf]
      simp
    · intro hf
      simp only
      rw [if_neg hf]

/-- The C9-amended witness response: text content, no tool calls,
`finish_reason: "stop"`. -/
def c9w : OAIResponse :=
  { id := some "r2"
    choices := [{ message := some { content := some "hello" }
                  finish_reason := some "stop" }] }

/-- Witness for `claim_C9_amended_thm` at `c9w`. -/
theorem claim_C9_amended_witness :
    ∃ m, convertOpenAIToClaude 7 c9w = .converted m
      ∧ (∀ t, ((c9w.choices.head?.getD {}).message.bind OAIMessageOut.content) = some t →
          m.content = [ClaudeBlock.text t] ∨ (t = "" ∧ m.content = [ClaudeBlock.text ""]))
      ∧ (((c9w.choices.head?.getD {}).message.bind OAIMessageOut.content) = none →
          m.content = [ClaudeBlock.text ""])
      ∧ ((c9w.choices.head?.getD {}).finish_reason = some "stop" →
          m.stop_reason = some "end_turn")
      ∧ ((c9w.choices.head?.getD {}).finish_reason ≠ some "stop" →
          m.stop_reason = (c9w.choices.head?.getD {}).finish_reason) :=
  claim_C9_amended_thm 7 c9w
    { message := some { content := some "hello" }, finish_reason := some "stop" } []
    rfl rfl

/-! ## Claim C10: the empty credential pool -/

/-- Three HTTP 500 outcomes, as would be recorded if fetches happened. -/
def c10Outcomes : List (Nat × FetchOutcome) :=
  [(0, .response 500 "err"), (0, .response 500 "err"), (0, .response 500 "err")]

/-- C10 counterexample.  Over an empty credential list, `getKey()` indeed
returns without throwing and yields no credential (the fallback indexes the
empty key array, i.e. JS `undefined`) — but no outbound request is ever
issued with an `Authorization` header built from that undefined credential:
the attempt's log statement `selectedKey.substring(0, 8)` (line 195) throws a
`TypeError` *before* the `fetch`, and the catch block's
`markKeyAsFailed(undefined, ...)` re-throws from its own log line, so the
error escapes `makeRequestWithRetry` and the list of issued fetches is
empty. -/
theorem claim_C10_counterexample :
    (getKey (mkManager []) 0).1 = none
    ∧ (makeRequestWithRetry 3 (mkManager []) 1 c10Outcomes).fetches = []
    ∧ (makeRequestWithRetry 3 (mkManager []) 1 c10Outcomes).result
        = .thrown "TypeError: cannot read properties of undefined" := by
  decide

/-- C10 (amended).  Over an empty credential list, `getKey()` does not throw
and returns no credential; every subsequent `makeRequestWithRetry` attempt
then throws a `TypeError` at the key-logging `substring` call before issuing
any outbound request, so nothing is ever sent with an undefined-based
`Authorization` header and the caller receives the handler's proxy error
instead. -/
theorem claim_C10_amended_thm (st : KeyManager) (hkeys : st.keys = [])
    (now m a : Nat) (oc : FetchOutcome) (rest : List (Nat × FetchOutcome)) :
    (getKey st now).1 = none
    ∧ (makeRequestWithRetry m st a ((now, oc) :: rest)).fetches = []
    ∧ (makeRequestWithRetry m st a ((now, oc) :: rest)).result
        = .thrown "TypeError: cannot read properties of undefined" := by
  have hsel : (getKey st now).1 = none := by
    have hav : st.keys.filter (fun k => !(mapHas (purgeMap st.failedKeys now) k)) = [] := by
      rw [hkeys]
      rfl
    have hcond : (st.keys.filter (fun k => !(mapHas (purgeMap st.failedKeys now) k))).isEmpty
        = true := by
      rw [hav]
      rfl
    simp only [getKey, hcond, if_true, hkeys]
    rfl
  refine ⟨hsel, ?_, ?_⟩ <;>
    · rcases hpair : getKey st now with ⟨sel1, st1⟩
      rw [hpair] at hsel
      simp only at hsel
      subst hsel
      simp [makeRequestWithRetry, hpair]

/-- Witness for `claim_C10_amended_thm` at the concrete empty pool. -/
theorem claim_C10_amended_witness :
    (getKey (mkManager []) 5).1 = none
    ∧ (makeRequestWithRetry 3 (mkManager []) 1 ((5, .network "n") :: [])).fetches = []
    ∧ (makeRequestWithRetry 3 (mkManager []) 1 ((5, .network "n") :: [])).result
        = .thrown "TypeError: cannot read properties of undefined" :=
  claim_C10_amended_thm (mkManager []) rfl 5 3 1 (.network "n") []
